import Mathlib

/-!
Shallow embedding of the `utils` repository (aruco.py, detect_aruco.py,
estimate_plane.py) and verification of its specification claims.

Numpy arrays are modelled as a shape together with row-major flat data
(`NDArr`); real-valued geometry is modelled over `ℝ`; calls that can raise
(`raise RuntimeError`, `assert`) return `Except String _`.
-/

open scoped Matrix

/-- A numpy ndarray: its shape and its row-major flattened data. -/
structure NDArr (α : Type) where
  shape : List ℕ
  data : List α
  deriving Repr, DecidableEq

/-- `np.empty(shape)` for a shape with a zero-sized axis (no elements). -/
def NDArr.empty {α : Type} (shape : List ℕ) : NDArr α := ⟨shape, []⟩

/-- `a[i]` on a rank-3 array of shape `(n, p, c)`: the `(p, c)` slice of marker `i`. -/
def NDArr.row3 {α : Type} (a : NDArr α) (i : ℕ) : NDArr α :=
  match a.shape with
  | [_, p, c] => ⟨[p, c], (a.data.drop (i * (p * c))).take (p * c)⟩
  | _ => ⟨[], []⟩

/-- `a[i]` on a rank-2 array of shape `(n, p)`: the length-`p` slice of marker `i`. -/
def NDArr.row2 {α : Type} (a : NDArr α) (i : ℕ) : NDArr α :=
  match a.shape with
  | [_, p] => ⟨[p], (a.data.drop (i * p)).take p⟩
  | _ => ⟨[], []⟩

/-- `np.take_along_axis(a, sel.reshape(n,1,1), axis=1)` on a rank-3 array of
shape `(n, p, c)`, keeping for each `i` only the pose `sel[i]`. -/
def take_along_axis3 {α : Type} (a : NDArr α) (sel : List ℕ) : NDArr α :=
  match a.shape with
  | [n, p, c] =>
    ⟨[n, 1, c], (List.range n).flatMap (fun i => (a.data.drop ((i * p + sel.getD i 0) * c)).take c)⟩
  | _ => ⟨[], []⟩

/-- `np.take_along_axis(a, sel.reshape(n,1), axis=1)` on a rank-2 array of
shape `(n, p)`. -/
def take_along_axis2 {α : Type} (a : NDArr α) (sel : List ℕ) : NDArr α :=
  match a.shape with
  | [n, p] =>
    ⟨[n, 1], (List.range n).flatMap (fun i => (a.data.drop (i * p + sel.getD i 0)).take 1)⟩
  | _ => ⟨[], []⟩

/-- The `ArucoList` detection-result record of `aruco.py`.  Fields that
`detect_aruco` can leave as Python `None` are `Option`s. -/
structure ArucoList (α : Type) where
  n : ℕ
  corners : NDArr α
  ids : NDArr ℤ
  n_rejected : ℕ
  rejected : NDArr α
  aruco_sizes : Option (NDArr α)
  n_poses : ℕ
  rvecs : Option (NDArr α)
  tvecs : Option (NDArr α)
  reprojection_errors : Option (NDArr α)
  deriving Repr, DecidableEq

/-- `select_aruco_poses(arucos, selector)` from `aruco.py` (lines 244-269).
The selector receives `rvecs[i]`, `tvecs[i]`, `reprojection_errors[i]` and
returns the chosen pose index. -/
def select_aruco_poses {α : Type} (arucos : ArucoList α)
    (selector : NDArr α → NDArr α → NDArr α → ℕ) : ArucoList α :=
  if arucos.n = 0 then
    { arucos with
      n_poses := 1
      rvecs := some (NDArr.empty [0, 1, 3])
      tvecs := some (NDArr.empty [0, 1, 3])
      reprojection_errors := some (NDArr.empty [0, 1, 3]) }
  else
    let rvecs := arucos.rvecs.getD (NDArr.empty [])
    let tvecs := arucos.tvecs.getD (NDArr.empty [])
    let reprojection_errors := arucos.reprojection_errors.getD (NDArr.empty [])
    let selected := (List.range arucos.n).map
      (fun i => selector (rvecs.row3 i) (tvecs.row3 i) (reprojection_errors.row2 i))
    { arucos with
      n_poses := 1
      rvecs := some (take_along_axis3 rvecs selected)
      tvecs := some (take_along_axis3 tvecs selected)
      reprojection_errors := some (take_along_axis2 reprojection_errors selected) }

/-- 3-vectors of reals, as used for rvecs, tvecs and 3d points. -/
abbrev Vec3 := Fin 3 → ℝ

/-- 3x3 real matrices (rotation matrices). -/
abbrev Mat3 := Matrix (Fin 3) (Fin 3) ℝ

/-- `np.linalg.norm` of a 3-vector. -/
noncomputable def norm3 (v : Vec3) : ℝ := Real.sqrt (v 0 ^ 2 + v 1 ^ 2 + v 2 ^ 2)

/-- `np.dot` of two 3-vectors. -/
def dot3 (u v : Vec3) : ℝ := u 0 * v 0 + u 1 * v 1 + u 2 * v 2

/-- `np.cross` of two 3-vectors. -/
def cross3 (u v : Vec3) : Vec3 :=
  ![u 1 * v 2 - u 2 * v 1, u 2 * v 0 - u 0 * v 2, u 0 * v 1 - u 1 * v 0]

/-- The skew-symmetric cross-product matrix of a 3-vector. -/
def crossMat (r : Vec3) : Mat3 :=
  !![0, -r 2, r 1; r 2, 0, -r 0; -r 1, r 0, 0]

/-- `cv2.Rodrigues`: axis-angle vector to rotation matrix,
`R = I + (sin θ / θ) K + ((1 - cos θ) / θ²) K²` with `θ = ‖r‖` and `K` the
cross-product matrix of `r` (for `r = 0` the divisions by zero vanish and
`R = I`, as cv2 returns). -/
noncomputable def Rodrigues (r : Vec3) : Mat3 :=
  let θ := norm3 r
  1 + (Real.sin θ / θ) • crossMat r
    + ((1 - Real.cos θ) / θ ^ 2) • (crossMat r * crossMat r)

/-- `math.atan2 y x`, via the argument of the complex number `x + y*i`
(identical conventions: range `(-π, π]`, `atan2 0 0 = 0`). -/
noncomputable def atan2 (y x : ℝ) : ℝ := Complex.arg ⟨x, y⟩

/-- Reading the 3-vector at flat offset `i*3` of an ndarray's data
(`a[..., i, :]` for a contiguous trailing axis of length 3). -/
def NDArr.vecAt (a : NDArr ℝ) (i : ℕ) : Vec3 :=
  fun k => a.data.getD (i * 3 + k.val) 0

/-- `np.argmax` over a list of scores: index of the first maximal entry. -/
noncomputable def np_argmax : List ℝ → ℕ
  | [] => 0
  | x :: xs => if xs.getD (np_argmax xs) x ≤ x then 0 else np_argmax xs + 1

/-- `np.argmin` over a list of scores: index of the first minimal entry. -/
noncomputable def np_argmin : List ℝ → ℕ
  | [] => 0
  | x :: xs => if x ≤ xs.getD (np_argmin xs) x then 0 else np_argmin xs + 1

/-- `PoseSelectors._select_by_rotation_matrix` (aruco.py lines 48-58):
score each pose's rotation matrix and take the argmax. -/
noncomputable def select_by_rotation_matrix (rvec : NDArr ℝ)
    (get_rotation_matrix_score : Mat3 → ℝ) : ℕ :=
  let n_poses := rvec.shape.getD 0 0
  let scores := (List.range n_poses).map
    (fun i => get_rotation_matrix_score (Rodrigues (rvec.vecAt i)))
  np_argmax scores

/-- `PoseSelectors.Z_axis_up` (aruco.py lines 60-69): score is minus the Y
component of the marker's Z axis, `-R[:, 2][1]`. -/
noncomputable def Z_axis_up (rvec _tvec _reprojection_error : NDArr ℝ) : ℕ :=
  select_by_rotation_matrix rvec (fun R => -(R 1 2))

/-- `PoseSelectors.best`: argmin of the reprojection errors. -/
noncomputable def PoseSelectors.best (_rvec _tvec reprojection_error : NDArr ℝ) : ℕ :=
  np_argmin reprojection_error.data

/-- `PoseSelectors.worst`: argmax of the reprojection errors. -/
noncomputable def PoseSelectors.worst (_rvec _tvec reprojection_error : NDArr ℝ) : ℕ :=
  np_argmax reprojection_error.data

/-- The raw output of `cv2.aruco.detectMarkers`: per-marker corner arrays
(each of shape `(1, 4, 2)`), marker ids, and rejected candidates. -/
structure DetectRaw where
  corners : List (NDArr ℝ)
  ids : List ℤ
  rejected : List (NDArr ℝ)

/-- The `aruco_sizes` argument of `detect_aruco`: a scalar, a flat
list/tuple/1-d array, or a nested (2-d) one. -/
inductive SizesArg where
  | scalar (s : ℝ)
  | seq (l : List ℝ)
  | seq2 (l : List (List ℝ))

/-- The object points of the pose solve (aruco.py lines 121-125): the
marker's square corners, top-left, top-right, bottom-right, bottom-left. -/
noncomputable def objPoints (aruco_size : ℝ) : List Vec3 :=
  [![-aruco_size / 2, aruco_size / 2, 0],
   ![aruco_size / 2, aruco_size / 2, 0],
   ![aruco_size / 2, -aruco_size / 2, 0],
   ![-aruco_size / 2, -aruco_size / 2, 0]]

/-- Normalisation and validation of `aruco_sizes` (aruco.py lines 105-114):
a scalar is broadcast to `n` entries, a nested sequence is rejected
(`len(shape) != 1`), and a flat sequence must have length `n`. -/
def normalizeSizes (szArg : SizesArg) (n : ℕ) : Except String (List ℝ) :=
  let arr : List ℝ ⊕ List (List ℝ) :=
    match szArg with
    | .scalar s => Sum.inl (List.replicate n s)
    | .seq l => Sum.inl l
    | .seq2 ll => Sum.inr ll
  match arr with
  | Sum.inr _ => .error "Use list, tuple or np.ndarray to pass multiple aruco sizes."
  | Sum.inl l =>
    if l.length = n then .ok l
    else .error "Number of aruco marker sizes does not correspond to the number of detected markers"

/-- Stable insertion of index `i` into an index list already sorted by the
keys `l`. -/
def argInsert (l : List ℤ) (i : ℕ) : List ℕ → List ℕ
  | [] => [i]
  | j :: rest => if l.getD i 0 < l.getD j 0 then i :: j :: rest else j :: argInsert l i rest

/-- `np.argsort` (stable) of a list of integer keys. -/
def argsortZ (l : List ℤ) : List ℕ :=
  (List.range l.length).foldr (fun i acc => argInsert l i acc) []

/-- One marker's solved poses: rotation vectors, translation vectors and
reprojection errors (each of length `n_poses`). -/
abbrev MarkerSol := List Vec3 × List Vec3 × List ℝ

/-- The pose-estimation loop of `detect_aruco` (aruco.py lines 116-156) over
the (size, corner) pairs, parametrised by the opaque PnP solver.  In
non-generic mode the single `cv2.solvePnP` solution is kept and the
reprojection error is the sentinel `[-1]`; in generic mode all
`cv2.solvePnPGeneric` solutions are kept and `assert len(rvec) == n_poses`
is checked. -/
noncomputable def solveMarkers {κ δ : Type}
    (solve : List Vec3 → NDArr ℝ → κ → δ → List (Vec3 × Vec3 × ℝ))
    (K : κ) (D : δ) (use_generic : Bool) (n_poses : ℕ) :
    List (ℝ × NDArr ℝ) → Except String (List MarkerSol)
  | [] => .ok []
  | (s, c) :: rest =>
    let sols := solve (objPoints s) c K D
    if use_generic then
      if sols.length = n_poses then
        (solveMarkers solve K D use_generic n_poses rest).map
          (fun r => (sols.map (·.1), sols.map (·.2.1), sols.map (·.2.2)) :: r)
      else .error "assert len(rvec) == n_poses failed"
    else
      let sol := sols.headD (fun _ => 0, fun _ => 0, -1)
      (solveMarkers solve K D use_generic n_poses rest).map
        (fun r => ([sol.1], [sol.2.1], [-1]) :: r)

/-- Flatten a 3-vector. -/
def vecToList (v : Vec3) : List ℝ := [v 0, v 1, v 2]

/-- `detect_aruco` (aruco.py lines 80-194).  The external 2d detector's
output is the `det` argument; the external PnP solver is the `solve`
argument (with `K` and `D` opaque); `aruco_sizes` is the tagged
scalar-or-sequence argument.  Returns the assembled `ArucoList`, or the
message of the `RuntimeError`/`AssertionError` the Python code raises. -/
noncomputable def detect_aruco {κ δ : Type} (det : DetectRaw)
    (K? : Option κ) (D? : Option δ) (aruco_sizes? : Option SizesArg)
    (use_generic : Bool)
    (solve : List Vec3 → NDArr ℝ → κ → δ → List (Vec3 × Vec3 × ℝ)) :
    Except String (ArucoList ℝ) :=
  let n := det.corners.length
  let n_rejected := det.rejected.length
  let n_poses := if use_generic then 2 else 1
  let rejected : NDArr ℝ :=
    if n_rejected ≠ 0 then ⟨[n_rejected, 1, 4, 2], det.rejected.flatMap NDArr.data⟩
    else NDArr.empty [0, 1, 4, 2]
  if n ≠ 0 then
    let perm := argsortZ det.ids
    let ids := perm.map (fun i => det.ids.getD i 0)
    let corners := perm.map (fun i => det.corners.getD i (NDArr.empty [1, 4, 2]))
    let cornersArr : NDArr ℝ := ⟨[n, 1, 4, 2], corners.flatMap NDArr.data⟩
    let idsArr : NDArr ℤ := ⟨[n, 1], ids⟩
    match K?, D?, aruco_sizes? with
    | some K, some D, some szArg =>
      (normalizeSizes szArg n).bind (fun aruco_sizes =>
        (solveMarkers solve K D use_generic n_poses (aruco_sizes.zip corners)).map
          (fun results =>
            { n := n
              corners := cornersArr
              ids := idsArr
              n_rejected := n_rejected
              rejected := rejected
              aruco_sizes := some ⟨[n], aruco_sizes⟩
              n_poses := n_poses
              rvecs := some ⟨[n, n_poses, 3], results.flatMap (fun m => m.1.flatMap vecToList)⟩
              tvecs := some ⟨[n, n_poses, 3], results.flatMap (fun m => m.2.1.flatMap vecToList)⟩
              reprojection_errors := some ⟨[n, n_poses], results.flatMap (fun m => m.2.2)⟩ }))
    | _, _, _ =>
      .ok { n := n
            corners := cornersArr
            ids := idsArr
            n_rejected := n_rejected
            rejected := rejected
            aruco_sizes := none
            n_poses := 0
            rvecs := none
            tvecs := none
            reprojection_errors := none }
  else
    .ok { n := 0
          corners := NDArr.empty [0, 1, 4, 2]
          ids := ⟨[0, 1], []⟩
          n_rejected := n_rejected
          rejected := rejected
          aruco_sizes := some (NDArr.empty [0])
          n_poses := n_poses
          rvecs := some (NDArr.empty [0, n_poses, 3])
          tvecs := some (NDArr.empty [0, n_poses, 3])
          reprojection_errors := some (NDArr.empty [0, n_poses]) }

/-- The `(sx, sy)` corner-sign order of `get_aruco_corners_3d` (and of
`detect_aruco`'s object points): top-left, top-right, bottom-right,
bottom-left. -/
def cornerSigns : List (ℝ × ℝ) := [(-1, 1), (1, 1), (1, -1), (-1, -1)]

/-- The homogeneous marker pose of `get_aruco_corners_3d` (aruco.py lines
208-212): rotation block from `cv2.Rodrigues`, translation column from the
tvec, last row from `np.eye(4)`. -/
noncomputable def markerPose (r t : Vec3) : Matrix (Fin 4) (Fin 4) ℝ :=
  let R := Rodrigues r
  !![R 0 0, R 0 1, R 0 2, t 0;
     R 1 0, R 1 1, R 1 2, t 1;
     R 2 0, R 2 1, R 2 2, t 2;
     0, 0, 0, 1]

/-- `get_aruco_corners_3d` (aruco.py lines 197-241): `None` when sizes or
poses are absent, otherwise for each marker, pose, and corner sign, the
first three components of the pose matrix applied to the homogeneous local
corner `(s/2*sx, s/2*sy, 0, 1)`. -/
noncomputable def get_aruco_corners_3d (arucos : ArucoList ℝ) :
    Option (List (List (List Vec3))) :=
  match arucos.aruco_sizes, arucos.rvecs, arucos.tvecs with
  | some aruco_sizes, some rvecs, some tvecs =>
    let n := arucos.n
    let n_poses := arucos.n_poses
    let pR := rvecs.shape.getD 1 0
    let pT := tvecs.shape.getD 1 0
    some ((List.range n).map (fun i =>
      (List.range n_poses).map (fun j =>
        let pose := markerPose (rvecs.vecAt (i * pR + j)) (tvecs.vecAt (i * pT + j))
        let aruco_size := aruco_sizes.data.getD i 0
        cornerSigns.map (fun sgn =>
          let cHom : Fin 4 → ℝ := ![aruco_size / 2 * sgn.1, aruco_size / 2 * sgn.2, 0, 1]
          fun k : Fin 3 => pose.mulVec cHom k.castSucc))))
  | _, _, _ => none

/-- `project_to_plane(p0, plane)` (estimate_plane.py lines 16-29): orthogonal
projection of a point onto the plane `a*x + b*y + c = z`. -/
noncomputable def project_to_plane (p0 plane : Vec3) : Vec3 :=
  let x0 := p0 0
  let y0 := p0 1
  let z0 := p0 2
  let a := plane 0
  let b := plane 1
  let c := plane 2
  let dz := (a * x0 + b * y0 + c - z0) / (a * a + b * b + 1)
  ![x0 - a * dz, y0 - b * dz, z0 + dz]

/-- The least-squares plane fit of `estimate_plane` (estimate_plane.py lines
45-47): design rows `[x_i, y_i, 1]`, normal equations
`plane = (AᵀA)⁻¹ Aᵀ B` with `B = z`. -/
noncomputable def fitPlane {m : ℕ} (points : Fin (m + 1) → Fin 3 → ℝ) : Vec3 :=
  let A : Matrix (Fin (m + 1)) (Fin 3) ℝ := Matrix.of fun i => ![points i 0, points i 1, 1]
  let B : Fin (m + 1) → ℝ := fun i => points i 2
  ((Aᵀ * A)⁻¹ * Aᵀ).mulVec B

/-- The centroid of the input points (estimate_plane.py line 49). -/
noncomputable def centroid3 {m : ℕ} (points : Fin (m + 1) → Fin 3 → ℝ) : Vec3 :=
  fun j => (∑ i, points i j) / (m + 1)

/-- The frame origin (estimate_plane.py line 50): projection of the centroid. -/
noncomputable def frameOrigin {m : ℕ} (points : Fin (m + 1) → Fin 3 → ℝ) : Vec3 :=
  project_to_plane (centroid3 points) (fitPlane points)

/-- The normalized plane-normal target `(-a, -b, 1) / ‖(-a, -b, 1)‖`
(estimate_plane.py lines 56-57). -/
noncomputable def unitNormal (a b : ℝ) : Vec3 :=
  fun k => (![-a, -b, 1] : Vec3) k / norm3 ![-a, -b, 1]

/-- `avr = src + tgt` (estimate_plane.py line 58), the unnormalized rotation
axis for `R1`. -/
noncomputable def avrVec (a b : ℝ) : Vec3 :=
  fun k => (![0, 0, 1] : Vec3) k + unitNormal a b k

/-- `R1` (estimate_plane.py lines 55-62): Rodrigues of the normalized
source-plus-target axis scaled by `π`. -/
noncomputable def planeR1 (a b : ℝ) : Mat3 :=
  Rodrigues (fun k => avrVec a b k / norm3 (avrVec a b) * Real.pi)

/-- The world-frame X-axis target (estimate_plane.py line 65): projection of
the first input point minus the origin. -/
noncomputable def worldXtarget {m : ℕ} (points : Fin (m + 1) → Fin 3 → ℝ) : Vec3 :=
  fun k => project_to_plane (points 0) (fitPlane points) k - frameOrigin points k

/-- Normalize a 3-vector, `v / np.linalg.norm(v)`. -/
noncomputable def normalize3 (v : Vec3) : Vec3 := fun k => v k / norm3 v

/-- The X-axis target expressed in `R1`'s local frame and normalized
(estimate_plane.py lines 66-67). -/
noncomputable def localXtarget {m : ℕ} (points : Fin (m + 1) → Fin 3 → ℝ) : Vec3 :=
  normalize3 ((planeR1 (fitPlane points 0) (fitPlane points 1))⁻¹.mulVec (worldXtarget points))

/-- The `R2` rotation angle (estimate_plane.py lines 68-70):
`atan2(‖cross(X, tgt)‖, dot(X, tgt))`. -/
noncomputable def frameTheta {m : ℕ} (points : Fin (m + 1) → Fin 3 → ℝ) : ℝ :=
  atan2 (norm3 (cross3 ![1, 0, 0] (localXtarget points)))
    (dot3 ![1, 0, 0] (localXtarget points))

/-- `R2` (estimate_plane.py line 71): rotation about the local Z axis. -/
noncomputable def planeR2 {m : ℕ} (points : Fin (m + 1) → Fin 3 → ℝ) : Mat3 :=
  Rodrigues (fun k => (![0, 0, 1] : Vec3) k * frameTheta points)

/-- The composed frame rotation `R = R1 @ R2` (estimate_plane.py line 73). -/
noncomputable def frameR {m : ℕ} (points : Fin (m + 1) → Fin 3 → ℝ) : Mat3 :=
  planeR1 (fitPlane points 0) (fitPlane points 1) * planeR2 points

/-- Assembling the 4x4 transform from `R` and the origin (estimate_plane.py
lines 74-76). -/
noncomputable def assembleT (R : Mat3) (o : Vec3) : Matrix (Fin 4) (Fin 4) ℝ :=
  !![R 0 0, R 0 1, R 0 2, o 0;
     R 1 0, R 1 1, R 1 2, o 1;
     R 2 0, R 2 1, R 2 2, o 2;
     0, 0, 0, 1]

/-- `estimate_plane` (estimate_plane.py lines 32-77) on the loaded, nonempty
point array: plane fit, origin, two-stage rotation, assembled transform; the
`assert np.linalg.norm(avr) > 0.01` degeneracy check is the error branch. -/
noncomputable def estimate_plane {m : ℕ} (points : Fin (m + 1) → Fin 3 → ℝ) :
    Except String (Matrix (Fin 4) (Fin 4) ℝ) :=
  if 0.01 < norm3 (avrVec (fitPlane points 0) (fitPlane points 1)) then
    .ok (assembleT (frameR points) (frameOrigin points))
  else
    .error "assert np.linalg.norm(avr) > 0.01 failed"

lemma norm3_nonneg (v : Vec3) : 0 ≤ norm3 v := Real.sqrt_nonneg _

lemma norm3_sq (v : Vec3) : norm3 v ^ 2 = v 0 ^ 2 + v 1 ^ 2 + v 2 ^ 2 :=
  Real.sq_sqrt (by positivity)

lemma norm3_smul (c : ℝ) (v : Vec3) : norm3 (fun k => c * v k) = |c| * norm3 v := by
  unfold norm3
  rw [show (fun k => c * v k) 0 ^ 2 + (fun k => c * v k) 1 ^ 2 + (fun k => c * v k) 2 ^ 2
      = c ^ 2 * (v 0 ^ 2 + v 1 ^ 2 + v 2 ^ 2) from by ring]
  rw [Real.sqrt_mul (sq_nonneg c), Real.sqrt_sq_eq_abs]

lemma crossMat_smulArg (c : ℝ) (v : Vec3) :
    crossMat (fun k => c * v k) = c • crossMat v := by
  ext i j
  fin_cases i <;> fin_cases j <;> simp [crossMat] <;> ring

lemma crossMat_transpose (v : Vec3) : (crossMat v)ᵀ = -crossMat v := by
  ext i j
  fin_cases i <;> fin_cases j <;> simp [crossMat]

lemma crossMat_sq (w : Vec3) : crossMat w * crossMat w =
    !![-(w 1 ^ 2) - w 2 ^ 2, w 0 * w 1, w 0 * w 2;
       w 0 * w 1, -(w 0 ^ 2) - w 2 ^ 2, w 1 * w 2;
       w 0 * w 2, w 1 * w 2, -(w 0 ^ 2) - w 1 ^ 2] := by
  ext i j
  fin_cases i <;> fin_cases j <;>
    simp [crossMat, Matrix.mul_apply, Fin.sum_univ_three] <;> ring

lemma crossMat_cube (w : Vec3) : crossMat w * crossMat w * crossMat w
    = (-(w 0 ^ 2 + w 1 ^ 2 + w 2 ^ 2)) • crossMat w := by
  ext i j
  fin_cases i <;> fin_cases j <;>
    simp [crossMat, Matrix.mul_apply, Fin.sum_univ_three] <;> ring

lemma Rodrigues_halfturn (w : Vec3) (hw : norm3 w ≠ 0) :
    Rodrigues (fun k => w k / norm3 w * Real.pi)
      = 1 + (2 / norm3 w ^ 2) • (crossMat w * crossMat w) := by
  have hM0 : 0 < norm3 w := lt_of_le_of_ne (norm3_nonneg w) (Ne.symm hw)
  have hrw : (fun k => w k / norm3 w * Real.pi) = fun k => (Real.pi / norm3 w) * w k := by
    funext k; ring
  rw [hrw]
  have hnorm : norm3 (fun k => (Real.pi / norm3 w) * w k) = Real.pi := by
    rw [norm3_smul]
    rw [abs_of_pos (by positivity : (0 : ℝ) < Real.pi / norm3 w)]
    field_simp
  unfold Rodrigues
  rw [hnorm, crossMat_smulArg]
  simp only [Real.sin_pi, Real.cos_pi]
  rw [show (Real.pi / norm3 w) • crossMat w * ((Real.pi / norm3 w) • crossMat w)
      = (Real.pi / norm3 w * (Real.pi / norm3 w)) • (crossMat w * crossMat w) from by
    rw [smul_mul_assoc, mul_smul_comm, smul_smul]]
  rw [smul_smul]
  have hpi : Real.pi ≠ 0 := Real.pi_ne_zero
  rw [show (0 : ℝ) / Real.pi * (Real.pi / norm3 w) = 0 from by ring, zero_smul, add_zero]
  rw [smul_smul]
  rw [show (1 - -1 : ℝ) / Real.pi ^ 2 * (Real.pi / norm3 w * (Real.pi / norm3 w))
      = 2 / norm3 w ^ 2 from by field_simp; ring]

lemma Rodrigues_z_mulVec_e3 (θ : ℝ) :
    (Rodrigues (fun k => (![0, 0, 1] : Vec3) k * θ)).mulVec ![0, 0, 1] = ![0, 0, 1] := by
  have hv : (fun k => (![0, 0, 1] : Vec3) k * θ) = (![0, 0, θ] : Vec3) := by
    funext k; fin_cases k <;> simp
  rw [hv]
  funext i
  unfold Rodrigues
  fin_cases i <;>
    simp [Matrix.mulVec, Matrix.dotProduct, Fin.sum_univ_three, crossMat,
      Matrix.add_apply, Matrix.smul_apply, Matrix.one_apply, Matrix.mul_apply]

lemma Rodrigues_z_mulVec_e1 (θ : ℝ) :
    (Rodrigues (fun k => (![0, 0, 1] : Vec3) k * θ)).mulVec ![1, 0, 0]
      = ![Real.cos θ, Real.sin θ, 0] := by
  have hv : (fun k => (![0, 0, 1] : Vec3) k * θ) = (![0, 0, θ] : Vec3) := by
    funext k; fin_cases k <;> simp
  rw [hv]
  have hn : norm3 (![0, 0, θ] : Vec3) = |θ| := by
    unfold norm3
    norm_num [Real.sqrt_sq_eq_abs]
  funext i
  unfold Rodrigues
  rw [hn]
  rcases lt_trichotomy θ 0 with hneg | rfl | hpos
  · have ha : |θ| = -θ := abs_of_neg hneg
    have hθ : θ ≠ 0 := ne_of_lt hneg
    fin_cases i <;>
      simp [ha, Matrix.mulVec, Matrix.dotProduct, Fin.sum_univ_three, crossMat,
        Matrix.add_apply, Matrix.smul_apply, Matrix.one_apply, Matrix.mul_apply,
        Real.cos_neg, Real.sin_neg] <;>
      field_simp <;> ring
  · fin_cases i <;>
      simp [Matrix.mulVec, Matrix.dotProduct, Fin.sum_univ_three, crossMat,
        Matrix.add_apply, Matrix.smul_apply, Matrix.one_apply, Matrix.mul_apply]
  · have ha : |θ| = θ := abs_of_pos hpos
    have hθ : θ ≠ 0 := ne_of_gt hpos
    fin_cases i <;>
      simp [ha, Matrix.mulVec, Matrix.dotProduct, Fin.sum_univ_three, crossMat,
        Matrix.add_apply, Matrix.smul_apply, Matrix.one_apply, Matrix.mul_apply] <;>
      field_simp <;> ring

lemma normalTarget_sq (a b : ℝ) : norm3 (![-a, -b, 1] : Vec3) ^ 2 = a ^ 2 + b ^ 2 + 1 := by
  rw [norm3_sq]
  norm_num

lemma normalTarget_pos (a b : ℝ) : 0 < norm3 (![-a, -b, 1] : Vec3) := by
  have h := normalTarget_sq a b
  nlinarith [norm3_nonneg (![-a, -b, 1] : Vec3)]

lemma unitNormal_z_pos (a b : ℝ) : 0 < unitNormal a b 2 := by
  unfold unitNormal
  have h2 : (![-a, -b, 1] : Vec3) 2 = 1 := by norm_num
  rw [h2]
  exact div_pos one_pos (normalTarget_pos a b)

lemma avrVec_comps (a b : ℝ) :
    avrVec a b 0 = -a / norm3 (![-a, -b, 1] : Vec3)
    ∧ avrVec a b 1 = -b / norm3 (![-a, -b, 1] : Vec3)
    ∧ avrVec a b 2 = 1 + 1 / norm3 (![-a, -b, 1] : Vec3) := by
  unfold avrVec unitNormal
  norm_num

lemma avr_sq (a b : ℝ) :
    norm3 (avrVec a b) ^ 2 = 2 + 2 / norm3 (![-a, -b, 1] : Vec3) := by
  have hN0 : 0 < norm3 (![-a, -b, 1] : Vec3) := normalTarget_pos a b
  have hN2 := normalTarget_sq a b
  obtain ⟨h0, h1, h2⟩ := avrVec_comps a b
  rw [norm3_sq, h0, h1, h2]
  have hNne : norm3 (![-a, -b, 1] : Vec3) ≠ 0 := ne_of_gt hN0
  field_simp
  linear_combination (-(norm3 (![-a, -b, 1] : Vec3))) * hN2

lemma avr_norm_gt_one (a b : ℝ) : 1 < norm3 (avrVec a b) := by
  have h := avr_sq a b
  have hN0 : 0 < norm3 (![-a, -b, 1] : Vec3) := normalTarget_pos a b
  have hd : 0 < 2 / norm3 (![-a, -b, 1] : Vec3) := by positivity
  nlinarith [norm3_nonneg (avrVec a b)]

lemma avr_norm_ne (a b : ℝ) : norm3 (avrVec a b) ≠ 0 := by
  have := avr_norm_gt_one a b
  intro h
  rw [h] at this
  linarith

lemma planeR1_eq (a b : ℝ) :
    planeR1 a b = 1 + (2 / norm3 (avrVec a b) ^ 2)
      • (crossMat (avrVec a b) * crossMat (avrVec a b)) := by
  unfold planeR1
  exact Rodrigues_halfturn _ (avr_norm_ne a b)

lemma planeR1_mulVec_e3 (a b : ℝ) :
    (planeR1 a b).mulVec ![0, 0, 1] = unitNormal a b := by
  have hN0 : 0 < norm3 (![-a, -b, 1] : Vec3) := normalTarget_pos a b
  have hNne : norm3 (![-a, -b, 1] : Vec3) ≠ 0 := ne_of_gt hN0
  have hN2 := normalTarget_sq a b
  have hM2 := avr_sq a b
  have hd : (0 : ℝ) < 2 + 2 / norm3 (![-a, -b, 1] : Vec3) := by positivity
  have hdne : (2 : ℝ) + 2 / norm3 (![-a, -b, 1] : Vec3) ≠ 0 := ne_of_gt hd
  obtain ⟨h0, h1, h2⟩ := avrVec_comps a b
  rw [planeR1_eq, hM2, crossMat_sq]
  funext i
  rw [Matrix.add_mulVec, Matrix.one_mulVec, Matrix.smul_mulVec_assoc]
  fin_cases i <;>
    simp [Matrix.mulVec, Matrix.dotProduct, Fin.sum_univ_three, unitNormal,
      h0, h1, h2] <;>
    field_simp <;>
    ring_nf <;>
    linear_combination (2 * norm3 (![-a, -b, 1] : Vec3) ^ 4) * hN2

lemma planeR1_mul_self (a b : ℝ) : planeR1 a b * planeR1 a b = 1 := by
  have hMne : norm3 (avrVec a b) ≠ 0 := avr_norm_ne a b
  have hM2 := norm3_sq (avrVec a b)
  rw [planeR1_eq]
  set c : ℝ := 2 / norm3 (avrVec a b) ^ 2 with hc
  set K : Mat3 := crossMat (avrVec a b) with hK
  have h4 : (K * K) * (K * K) = (-(norm3 (avrVec a b) ^ 2)) • (K * K) := by
    calc (K * K) * (K * K) = (K * K * K) * K := (mul_assoc (K * K) K K).symm
    _ = ((-(avrVec a b 0 ^ 2 + avrVec a b 1 ^ 2 + avrVec a b 2 ^ 2)) • K) * K := by
        rw [hK, crossMat_cube]
    _ = (-(avrVec a b 0 ^ 2 + avrVec a b 1 ^ 2 + avrVec a b 2 ^ 2)) • (K * K) := by
        rw [smul_mul_assoc]
    _ = (-(norm3 (avrVec a b) ^ 2)) • (K * K) := by rw [hM2]
  have expand : (1 + c • (K * K)) * (1 + c • (K * K))
      = 1 + (c + c) • (K * K) + (c * c) • ((K * K) * (K * K)) := by
    simp only [mul_add, add_mul, one_mul, mul_one, mul_smul_comm, smul_mul_assoc,
      smul_smul, add_smul, smul_add]
    abel
  rw [expand, h4, smul_smul, add_assoc, ← add_smul]
  rw [show c + c + c * c * -(norm3 (avrVec a b) ^ 2) = 0 from by rw [hc]; field_simp; ring]
  rw [zero_smul, add_zero]

lemma planeR1_transpose (a b : ℝ) : (planeR1 a b)ᵀ = planeR1 a b := by
  rw [planeR1_eq, Matrix.transpose_add, Matrix.transpose_one, Matrix.transpose_smul,
    Matrix.transpose_mul, crossMat_transpose, neg_mul_neg]

lemma planeR1_inv (a b : ℝ) : (planeR1 a b)⁻¹ = planeR1 a b :=
  Matrix.inv_eq_right_inv (planeR1_mul_self a b)

lemma dotProduct_self_three (x : Vec3) : x ⬝ᵥ x = x 0 ^ 2 + x 1 ^ 2 + x 2 ^ 2 := by
  simp [Matrix.dotProduct, Fin.sum_univ_three]
  ring

lemma planeR1_norm_preserve (a b : ℝ) (v : Vec3) :
    norm3 ((planeR1 a b).mulVec v) = norm3 v := by
  unfold norm3
  rw [← dotProduct_self_three, ← dotProduct_self_three]
  rw [Matrix.dotProduct_mulVec, ← Matrix.mulVec_transpose, planeR1_transpose,
    Matrix.mulVec_mulVec, planeR1_mul_self, Matrix.one_mulVec]

lemma mulVec_e3_col (M : Mat3) (k : Fin 3) : M.mulVec ![0, 0, 1] k = M k 2 := by
  simp [Matrix.mulVec, Matrix.dotProduct, Fin.sum_univ_three]

lemma mulVec_e1_col (M : Mat3) (k : Fin 3) : M.mulVec ![1, 0, 0] k = M k 0 := by
  simp [Matrix.mulVec, Matrix.dotProduct, Fin.sum_univ_three]

lemma planeR1_col2 (a b : ℝ) (k : Fin 3) : planeR1 a b k 2 = unitNormal a b k := by
  have h := congrFun (planeR1_mulVec_e3 a b) k
  rw [mulVec_e3_col] at h
  exact h

lemma planeR1_symm (a b : ℝ) (j k : Fin 3) : planeR1 a b j k = planeR1 a b k j := by
  conv_lhs => rw [← planeR1_transpose a b, Matrix.transpose_apply]

lemma project_to_plane_sat (p pl : Vec3) :
    pl 0 * project_to_plane p pl 0 + pl 1 * project_to_plane p pl 1 + pl 2
      = project_to_plane p pl 2 := by
  have hden : (0 : ℝ) < pl 0 * pl 0 + pl 1 * pl 1 + 1 := by nlinarith [sq_nonneg (pl 0), sq_nonneg (pl 1)]
  simp only [project_to_plane, Matrix.cons_val_zero, Matrix.cons_val_one, Matrix.head_cons]
  field_simp
  ring

lemma worldXtarget_orth {m : ℕ} (pts : Fin (m + 1) → Fin 3 → ℝ) :
    fitPlane pts 0 * worldXtarget pts 0 + fitPlane pts 1 * worldXtarget pts 1
      - worldXtarget pts 2 = 0 := by
  have h1 := project_to_plane_sat (pts 0) (fitPlane pts)
  have h2 := project_to_plane_sat (centroid3 pts) (fitPlane pts)
  unfold worldXtarget frameOrigin
  ring_nf
  ring_nf at h1 h2
  linarith

lemma planeR1_mulVec_worldX_z {m : ℕ} (pts : Fin (m + 1) → Fin 3 → ℝ) :
    (planeR1 (fitPlane pts 0) (fitPlane pts 1)).mulVec (worldXtarget pts) 2 = 0 := by
  have horth := worldXtarget_orth pts
  have hN0 : 0 < norm3 (![-(fitPlane pts 0), -(fitPlane pts 1), 1] : Vec3) :=
    normalTarget_pos _ _
  have hNne := ne_of_gt hN0
  have hrow : ∀ k : Fin 3, planeR1 (fitPlane pts 0) (fitPlane pts 1) 2 k
      = unitNormal (fitPlane pts 0) (fitPlane pts 1) k := by
    intro k
    rw [planeR1_symm, planeR1_col2]
  simp only [Matrix.mulVec, Matrix.dotProduct, Fin.sum_univ_three]
  rw [hrow 0, hrow 1, hrow 2]
  unfold unitNormal
  simp only [Matrix.cons_val_zero, Matrix.cons_val_one, Matrix.head_cons]
  rw [show ((![-(fitPlane pts 0), -(fitPlane pts 1), 1] : Vec3) 2 : ℝ) = 1 from by norm_num]
  field_simp
  linear_combination
    (-(norm3 (![-(fitPlane pts 0), -(fitPlane pts 1), 1] : Vec3) ^ 2)) * horth

lemma normalize3_eq_smul (v : Vec3) : normalize3 v = (norm3 v)⁻¹ • v := by
  funext k
  simp [normalize3, div_eq_inv_mul]

lemma norm3_normalize3 (v : Vec3) (h : norm3 v ≠ 0) : norm3 (normalize3 v) = 1 := by
  have h0 : 0 < norm3 v := lt_of_le_of_ne (norm3_nonneg v) (Ne.symm h)
  have : normalize3 v = fun k => (norm3 v)⁻¹ * v k := by
    funext k; simp [normalize3, div_eq_inv_mul]
  rw [this, norm3_smul, abs_of_pos (inv_pos.mpr h0), inv_mul_cancel₀ h]

lemma cross3_e1 (u : Vec3) : cross3 ![1, 0, 0] u = ![0, -u 2, u 1] := by
  funext k
  fin_cases k <;> simp [cross3]

lemma dot3_e1 (u : Vec3) : dot3 ![1, 0, 0] u = u 0 := by
  simp [dot3]

lemma atan2_cos_sin (x y : ℝ) (h : Real.sqrt (x ^ 2 + y ^ 2) = 1) :
    Real.cos (atan2 y x) = x ∧ Real.sin (atan2 y x) = y := by
  have habs : Complex.abs ⟨x, y⟩ = 1 := by
    rw [Complex.abs_apply, Complex.normSq_mk]
    rw [show x * x + y * y = x ^ 2 + y ^ 2 from by ring]
    exact h
  have hz : (⟨x, y⟩ : ℂ) ≠ 0 := by
    intro h0
    rw [h0] at habs
    simp at habs
  constructor
  · have := Complex.cos_arg hz
    rw [habs] at this
    simpa [atan2] using this
  · have := Complex.sin_arg (⟨x, y⟩ : ℂ)
    rw [habs] at this
    simpa [atan2] using this

lemma estimate_plane_guard {m : ℕ} (pts : Fin (m + 1) → Fin 3 → ℝ) :
    (0.01 : ℝ) < norm3 (avrVec (fitPlane pts 0) (fitPlane pts 1)) := by
  have := avr_norm_gt_one (fitPlane pts 0) (fitPlane pts 1)
  linarith

lemma estimate_plane_eq {m : ℕ} (pts : Fin (m + 1) → Fin 3 → ℝ) :
    estimate_plane pts = .ok (assembleT (frameR pts) (frameOrigin pts)) := by
  unfold estimate_plane
  rw [if_pos (estimate_plane_guard pts)]

lemma frameR_mulVec_e3 {m : ℕ} (pts : Fin (m + 1) → Fin 3 → ℝ) :
    (frameR pts).mulVec ![0, 0, 1] = unitNormal (fitPlane pts 0) (fitPlane pts 1) := by
  unfold frameR planeR2
  rw [← Matrix.mulVec_mulVec, Rodrigues_z_mulVec_e3, planeR1_mulVec_e3]

lemma frameR_mulVec_e1 {m : ℕ} (pts : Fin (m + 1) → Fin 3 → ℝ)
    (h1 : norm3 (worldXtarget pts) ≠ 0) (h2 : 0 ≤ localXtarget pts 1) :
    (frameR pts).mulVec ![1, 0, 0] = normalize3 (worldXtarget pts) := by
  have hu_eq : localXtarget pts
      = normalize3 ((planeR1 (fitPlane pts 0) (fitPlane pts 1)).mulVec (worldXtarget pts)) := by
    unfold localXtarget
    rw [planeR1_inv]
  have hLw : norm3 ((planeR1 (fitPlane pts 0) (fitPlane pts 1)).mulVec (worldXtarget pts))
      = norm3 (worldXtarget pts) := planeR1_norm_preserve _ _ _
  have hLne : norm3 ((planeR1 (fitPlane pts 0) (fitPlane pts 1)).mulVec (worldXtarget pts)) ≠ 0 := by
    rw [hLw]; exact h1
  have hu2 : localXtarget pts 2 = 0 := by
    rw [hu_eq]
    show (planeR1 (fitPlane pts 0) (fitPlane pts 1)).mulVec (worldXtarget pts) 2
        / norm3 ((planeR1 (fitPlane pts 0) (fitPlane pts 1)).mulVec (worldXtarget pts)) = 0
    rw [planeR1_mulVec_worldX_z pts, zero_div]
  have hun : norm3 (localXtarget pts) = 1 := by
    rw [hu_eq]; exact norm3_normalize3 _ hLne
  have hxy : Real.sqrt (localXtarget pts 0 ^ 2 + localXtarget pts 1 ^ 2) = 1 := by
    have h := hun
    unfold norm3 at h
    rw [hu2] at h
    calc Real.sqrt (localXtarget pts 0 ^ 2 + localXtarget pts 1 ^ 2)
        = Real.sqrt (localXtarget pts 0 ^ 2 + localXtarget pts 1 ^ 2 + 0 ^ 2) := by norm_num
    _ = 1 := h
  have hsine : norm3 (cross3 ![1, 0, 0] (localXtarget pts)) = localXtarget pts 1 := by
    rw [cross3_e1]
    unfold norm3
    rw [show ((![0, -(localXtarget pts 2), localXtarget pts 1] : Vec3) 0) ^ 2
        + (![0, -(localXtarget pts 2), localXtarget pts 1] 1) ^ 2
        + (![0, -(localXtarget pts 2), localXtarget pts 1] 2) ^ 2
        = localXtarget pts 1 ^ 2 from by rw [hu2]; norm_num]
    rw [Real.sqrt_sq_eq_abs]
    exact abs_of_nonneg h2
  have hθeq : frameTheta pts = atan2 (localXtarget pts 1) (localXtarget pts 0) := by
    unfold frameTheta
    rw [hsine, dot3_e1]
  have hR2e1 : (planeR2 pts).mulVec ![1, 0, 0]
      = ![localXtarget pts 0, localXtarget pts 1, 0] := by
    unfold planeR2
    rw [Rodrigues_z_mulVec_e1, hθeq]
    rw [(atan2_cos_sin (localXtarget pts 0) (localXtarget pts 1) hxy).1,
      (atan2_cos_sin (localXtarget pts 0) (localXtarget pts 1) hxy).2]
  have hue : (![localXtarget pts 0, localXtarget pts 1, 0] : Vec3) = localXtarget pts := by
    funext k
    fin_cases k <;> simp [hu2]
  unfold frameR
  rw [← Matrix.mulVec_mulVec, hR2e1, hue, hu_eq, normalize3_eq_smul, Matrix.mulVec_smul,
    Matrix.mulVec_mulVec, planeR1_mul_self, Matrix.one_mulVec, hLw,
    normalize3_eq_smul (worldXtarget pts)]

/-- A 4-point cloud in the plane z = 0 whose first point is (0, 1, 0). -/
noncomputable def ptsA : Fin 4 → Fin 3 → ℝ :=
  ![![0, 1, 0], ![0, -1, 0], ![1, 0, 0], ![-1, 0, 0]]

/-- A 4-point cloud in the plane z = 0 whose first point is (0, -1, 0). -/
noncomputable def ptsB : Fin 4 → Fin 3 → ℝ :=
  ![![0, -1, 0], ![0, 1, 0], ![1, 0, 0], ![-1, 0, 0]]

lemma fitPlane_zeroZ {m : ℕ} (pts : Fin (m + 1) → Fin 3 → ℝ) (h : ∀ i, pts i 2 = 0) :
    fitPlane pts = fun _ => 0 := by
  unfold fitPlane
  rw [show (fun i : Fin (m + 1) => pts i 2) = (0 : Fin (m + 1) → ℝ) from funext h]
  rw [Matrix.mulVec_zero]
  rfl

lemma project_to_plane_zero (p : Vec3) :
    project_to_plane p (fun _ => 0) = ![p 0, p 1, 0] := by
  funext k
  fin_cases k <;> norm_num [project_to_plane]

lemma fitPlane_ptsA : fitPlane ptsA = fun _ => 0 :=
  fitPlane_zeroZ ptsA (by intro i; fin_cases i <;> norm_num [ptsA])

lemma fitPlane_ptsB : fitPlane ptsB = fun _ => 0 :=
  fitPlane_zeroZ ptsB (by intro i; fin_cases i <;> norm_num [ptsB])

lemma centroid3_ptsA : centroid3 ptsA = fun _ => 0 := by
  funext j
  unfold centroid3
  fin_cases j <;>
    norm_num [ptsA, Fin.sum_univ_succ, Fin.sum_univ_three, Matrix.vecHead, Matrix.vecTail,
      Matrix.cons_val_zero, Matrix.cons_val_succ]

lemma centroid3_ptsB : centroid3 ptsB = fun _ => 0 := by
  funext j
  unfold centroid3
  fin_cases j <;>
    norm_num [ptsB, Fin.sum_univ_succ, Fin.sum_univ_three, Matrix.vecHead, Matrix.vecTail,
      Matrix.cons_val_zero, Matrix.cons_val_succ]

lemma frameOrigin_ptsA : frameOrigin ptsA = fun _ => 0 := by
  unfold frameOrigin
  rw [centroid3_ptsA, fitPlane_ptsA, project_to_plane_zero]
  funext k
  fin_cases k <;> norm_num

lemma frameOrigin_ptsB : frameOrigin ptsB = fun _ => 0 := by
  unfold frameOrigin
  rw [centroid3_ptsB, fitPlane_ptsB, project_to_plane_zero]
  funext k
  fin_cases k <;> norm_num

lemma worldX_ptsA : worldXtarget ptsA = ![0, 1, 0] := by
  unfold worldXtarget
  rw [fitPlane_ptsA, frameOrigin_ptsA]
  funext k
  rw [project_to_plane_zero]
  fin_cases k <;> norm_num [ptsA]

lemma worldX_ptsB : worldXtarget ptsB = ![0, -1, 0] := by
  unfold worldXtarget
  rw [fitPlane_ptsB, frameOrigin_ptsB]
  funext k
  rw [project_to_plane_zero]
  fin_cases k <;> norm_num [ptsB]

lemma norm3_y_pos : norm3 (![0, 1, 0] : Vec3) = 1 := by
  unfold norm3
  norm_num

lemma norm3_y_neg : norm3 (![0, -1, 0] : Vec3) = 1 := by
  unfold norm3
  norm_num

lemma unitNormal_zero : unitNormal 0 0 = ![0, 0, 1] := by
  have hn : norm3 (![-(0 : ℝ), -0, 1] : Vec3) = 1 := by
    unfold norm3
    norm_num
  funext k
  unfold unitNormal
  rw [hn]
  fin_cases k <;> norm_num

lemma planeR1_zero : planeR1 0 0 = !![-1, 0, 0; 0, -1, 0; 0, 0, 1] := by
  have havr : avrVec 0 0 = ![0, 0, 2] := by
    funext k
    unfold avrVec
    rw [unitNormal_zero]
    fin_cases k <;> norm_num
  have hn : norm3 (![0, 0, 2] : Vec3) ^ 2 = 4 := by
    rw [norm3_sq]
    norm_num
  rw [planeR1_eq, havr, hn, crossMat_sq]
  ext i j
  fin_cases i <;> fin_cases j <;>
    norm_num [Matrix.add_apply, Matrix.smul_apply, Matrix.one_apply,
      Matrix.vecHead, Matrix.vecTail, Fin.ext_iff]

lemma R1zero_mulVec_y_pos : (!![-1, 0, 0; 0, -1, 0; 0, 0, 1] : Mat3).mulVec ![0, 1, 0]
    = ![0, -1, 0] := by
  funext k
  fin_cases k <;> simp [Matrix.mulVec, Matrix.dotProduct, Fin.sum_univ_three]

lemma R1zero_mulVec_y_neg : (!![-1, 0, 0; 0, -1, 0; 0, 0, 1] : Mat3).mulVec ![0, -1, 0]
    = ![0, 1, 0] := by
  funext k
  fin_cases k <;> simp [Matrix.mulVec, Matrix.dotProduct, Fin.sum_univ_three]

lemma localX_ptsA : localXtarget ptsA = ![0, -1, 0] := by
  unfold localXtarget
  simp only [fitPlane_ptsA, worldX_ptsA, planeR1_inv]
  simp only [planeR1_zero, R1zero_mulVec_y_pos]
  funext k
  unfold normalize3
  rw [norm3_y_neg]
  fin_cases k <;> norm_num

lemma localX_ptsB : localXtarget ptsB = ![0, 1, 0] := by
  unfold localXtarget
  simp only [fitPlane_ptsB, worldX_ptsB, planeR1_inv]
  simp only [planeR1_zero, R1zero_mulVec_y_neg]
  funext k
  unfold normalize3
  rw [norm3_y_pos]
  fin_cases k <;> norm_num

lemma theta_ptsA : frameTheta ptsA = Real.pi / 2 := by
  unfold frameTheta
  rw [localX_ptsA]
  have h1 : cross3 ![1, 0, 0] ![0, -1, 0] = ![0, 0, -1] := by
    funext k
    fin_cases k <;> norm_num [cross3]
  have h2 : norm3 (![0, 0, -1] : Vec3) = 1 := by
    unfold norm3
    norm_num
  have h3 : dot3 ![1, 0, 0] ![0, -1, 0] = 0 := by
    norm_num [dot3]
  rw [h1, h2, h3]
  unfold atan2
  rw [show (⟨0, 1⟩ : ℂ) = Complex.I from by apply Complex.ext <;> simp]
  exact Complex.arg_I

lemma frameR_e1_ptsA : (frameR ptsA).mulVec ![1, 0, 0] = ![0, -1, 0] := by
  unfold frameR planeR2
  rw [← Matrix.mulVec_mulVec, Rodrigues_z_mulVec_e1, theta_ptsA,
    Real.cos_pi_div_two, Real.sin_pi_div_two]
  simp only [fitPlane_ptsA]
  rw [planeR1_zero]
  exact R1zero_mulVec_y_pos

/-- C2: for every input point cloud, `estimate_plane` succeeds and the third
column of the rotation block of the returned 4x4 transform equals the
normalized plane-normal target `(-a, -b, 1)` built from the step-1
least-squares coefficients; the rotation `R2` about the local Z axis does not
move the frame's Z axis. -/
theorem estimate_plane_z_axis {m : ℕ} (points : Fin (m + 1) → Fin 3 → ℝ) :
    (estimate_plane points).map (fun T => fun i : Fin 3 => T i.castSucc 2)
      = .ok (unitNormal (fitPlane points 0) (fitPlane points 1)) := by
  rw [estimate_plane_eq]
  show Except.ok _ = _
  congr 1
  funext i
  have h := congrFun (frameR_mulVec_e3 points) i
  rw [mulVec_e3_col] at h
  rw [← h]
  fin_cases i <;> rfl

/-- C3, counterexample: on the point cloud `ptsA` (four points on z = 0 with
first point (0, 1, 0)) the rotation of the returned transform does not map
canonical X onto the normalized direction from the frame origin to the
projection of the first input point: the code always takes the nonnegative
`atan2(|cross|, dot)` angle, so the image has its local Y component flipped. -/
theorem estimate_plane_x_axis_counterexample :
    ¬ ((estimate_plane ptsA).map (fun T => fun i : Fin 3 => T i.castSucc 0)
        = .ok (normalize3 (worldXtarget ptsA))) := by
  rw [estimate_plane_eq]
  intro h
  have h' : (fun i : Fin 3 => assembleT (frameR ptsA) (frameOrigin ptsA) i.castSucc 0)
      = normalize3 (worldXtarget ptsA) := Except.ok.inj h
  have h1 := congrFun h' 1
  rw [show assembleT (frameR ptsA) (frameOrigin ptsA) (1 : Fin 3).castSucc 0
      = frameR ptsA 1 0 from rfl] at h1
  have h2 := congrFun frameR_e1_ptsA 1
  rw [mulVec_e1_col] at h2
  rw [h2] at h1
  rw [worldX_ptsA] at h1
  simp [normalize3, norm3_y_pos] at h1
  exact absurd h1 (by norm_num)

/-- C3, amended: when the X-axis target expressed in `R1`'s local frame has a
nonnegative Y component (i.e. the Z component of `cross(X, target)` is
nonnegative) and the first point's projection differs from the origin, the
rotation of the returned transform maps canonical X onto the normalized
direction from the frame origin to the projection of the first input point;
with a negative local Y component the image is that direction with its local
Y component flipped, since the code uses `atan2(‖cross‖, dot) ≥ 0`. -/
theorem estimate_plane_x_axis_amended {m : ℕ} (points : Fin (m + 1) → Fin 3 → ℝ)
    (h1 : norm3 (worldXtarget points) ≠ 0) (h2 : 0 ≤ localXtarget points 1) :
    (estimate_plane points).map (fun T => fun i : Fin 3 => T i.castSucc 0)
      = .ok (normalize3 (worldXtarget points)) := by
  rw [estimate_plane_eq]
  show Except.ok _ = _
  congr 1
  funext i
  have h := congrFun (frameR_mulVec_e1 points h1 h2) i
  rw [mulVec_e1_col] at h
  rw [← h]
  fin_cases i <;> rfl

/-- C3, witness: the amended statement applied to the concrete cloud `ptsB`
(first point (0, -1, 0), whose local X target has Y component 1 ≥ 0). -/
theorem estimate_plane_x_axis_witness :
    (estimate_plane ptsB).map (fun T => fun i : Fin 3 => T i.castSucc 0)
      = .ok (normalize3 (worldXtarget ptsB)) := by
  apply estimate_plane_x_axis_amended
  · rw [worldX_ptsB, norm3_y_neg]
    norm_num
  · rw [localX_ptsB]
    norm_num

/-- C9: `project_to_plane` returns exactly
`(x0 - a*dz, y0 - b*dz, z0 + dz)` with `dz = (a*x0+b*y0+c-z0)/(a²+b²+1)`;
the result satisfies the plane equation `a*x + b*y + c = z` exactly, and the
displacement from the input point is the multiple `dz` of the plane normal
`(-a, -b, 1)`. -/
theorem project_to_plane_spec (p0 plane : Vec3) :
    project_to_plane p0 plane
        = ![p0 0 - plane 0 * ((plane 0 * p0 0 + plane 1 * p0 1 + plane 2 - p0 2)
              / (plane 0 ^ 2 + plane 1 ^ 2 + 1)),
           p0 1 - plane 1 * ((plane 0 * p0 0 + plane 1 * p0 1 + plane 2 - p0 2)
              / (plane 0 ^ 2 + plane 1 ^ 2 + 1)),
           p0 2 + (plane 0 * p0 0 + plane 1 * p0 1 + plane 2 - p0 2)
              / (plane 0 ^ 2 + plane 1 ^ 2 + 1)]
    ∧ plane 0 * project_to_plane p0 plane 0 + plane 1 * project_to_plane p0 plane 1 + plane 2
        = project_to_plane p0 plane 2
    ∧ (fun k => project_to_plane p0 plane k - p0 k)
        = ((plane 0 * p0 0 + plane 1 * p0 1 + plane 2 - p0 2)
            / (plane 0 ^ 2 + plane 1 ^ 2 + 1)) • (![-(plane 0), -(plane 1), 1] : Vec3) := by
  refine ⟨?_, project_to_plane_sat p0 plane, ?_⟩
  · have hd : plane 0 * plane 0 + plane 1 * plane 1 + 1 = plane 0 ^ 2 + plane 1 ^ 2 + 1 := by
      ring
    funext k
    fin_cases k <;> norm_num [project_to_plane, hd]
  · funext k
    fin_cases k <;>
      simp [project_to_plane, Pi.smul_apply, smul_eq_mul] <;> ring

/-- C10: the normalized plane-normal target always has a strictly positive
third component, the norm of `src + tgt` always exceeds 1 (so the
`norm > 0.01` assertion never fails), and `estimate_plane` therefore always
takes the success branch. -/
theorem estimate_plane_assert_never_fails :
    (∀ a b : ℝ, 0 < unitNormal a b 2
        ∧ 1 < norm3 (fun k => (![0, 0, 1] : Vec3) k + unitNormal a b k))
    ∧ ∀ (m : ℕ) (points : Fin (m + 1) → Fin 3 → ℝ),
        ∃ T, estimate_plane points = .ok T := by
  constructor
  · intro a b
    exact ⟨unitNormal_z_pos a b, avr_norm_gt_one a b⟩
  · intro m points
    exact ⟨_, estimate_plane_eq points⟩

lemma flatMap_chunks_length {β : Type} (n c : ℕ) (f : ℕ → List β)
    (h : ∀ i, i < n → (f i).length = c) :
    ((List.range n).flatMap f).length = n * c := by
  induction n with
  | zero => simp
  | succ n ih =>
    rw [List.range_succ, List.flatMap_append]
    simp only [List.flatMap_cons, List.flatMap_nil, List.append_nil, List.length_append]
    rw [ih (fun i hi => h i (Nat.lt_succ_of_lt hi)), h n (Nat.lt_succ_self n)]
    ring

lemma flatMap_chunks_getElem? {β : Type} (n c : ℕ) (f : ℕ → List β)
    (h : ∀ i, i < n → (f i).length = c) (i k : ℕ) (hi : i < n) (hk : k < c) :
    ((List.range n).flatMap f)[i * c + k]? = (f i)[k]? := by
  induction n with
  | zero => omega
  | succ n ih =>
    rw [List.range_succ, List.flatMap_append]
    simp only [List.flatMap_cons, List.flatMap_nil, List.append_nil]
    rcases Nat.lt_or_ge i n with hin | hin
    · have hlt : i * c + k < ((List.range n).flatMap f).length := by
        rw [flatMap_chunks_length n c f (fun j hj => h j (Nat.lt_succ_of_lt hj))]
        calc i * c + k < i * c + c := by omega
        _ = (i + 1) * c := by ring
        _ ≤ n * c := Nat.mul_le_mul_right c hin
      rw [List.getElem?_append_left hlt]
      exact ih (fun j hj => h j (Nat.lt_succ_of_lt hj)) hin
    · have hieq : i = n := by omega
      subst hieq
      have hge : ((List.range i).flatMap f).length ≤ i * c + k := by
        rw [flatMap_chunks_length i c f (fun j hj => h j (Nat.lt_succ_of_lt hj))]
        omega
      rw [List.getElem?_append_right hge]
      rw [flatMap_chunks_length i c f (fun j hj => h j (Nat.lt_succ_of_lt hj))]
      congr 1
      omega

lemma getD_map_range (f : ℕ → ℕ) (n i : ℕ) (hi : i < n) :
    ((List.range n).map f).getD i 0 = f i := by
  rw [List.getD_eq_getElem?_getD, List.getElem?_map, List.getElem?_range hi]
  rfl

lemma take_along_axis3_spec {α : Type} (a : NDArr α) (sel : List ℕ) (n p : ℕ)
    (hsh : a.shape = [n, p, 3]) (hlen : a.data.length = n * p * 3)
    (hsel : ∀ i, i < n → sel.getD i 0 < p) :
    (take_along_axis3 a sel).shape = [n, 1, 3]
    ∧ ∀ i k, i < n → k < 3 →
        (take_along_axis3 a sel).data[i * 3 + k]?
          = a.data[(i * p + sel.getD i 0) * 3 + k]? := by
  have heq : take_along_axis3 a sel
      = ⟨[n, 1, 3], (List.range n).flatMap
          (fun i => (a.data.drop ((i * p + sel.getD i 0) * 3)).take 3)⟩ := by
    unfold take_along_axis3
    rw [hsh]
  have hchunk : ∀ i, i < n →
      ((a.data.drop ((i * p + sel.getD i 0) * 3)).take 3).length = 3 := by
    intro i hi
    have hbound : (i * p + sel.getD i 0) * 3 + 3 ≤ n * p * 3 := by
      have h1 : i * p + sel.getD i 0 + 1 ≤ (i + 1) * p := by
        have hh := hsel i hi
        calc i * p + sel.getD i 0 + 1 ≤ i * p + p := by omega
        _ = (i + 1) * p := by ring
      calc (i * p + sel.getD i 0) * 3 + 3 = (i * p + sel.getD i 0 + 1) * 3 := by ring
      _ ≤ ((i + 1) * p) * 3 := Nat.mul_le_mul_right 3 h1
      _ ≤ (n * p) * 3 := Nat.mul_le_mul_right 3 (Nat.mul_le_mul_right p hi)
    rw [List.length_take, List.length_drop, hlen]
    omega
  constructor
  · rw [heq]
  · intro i k hi hk
    rw [heq]
    show ((List.range n).flatMap
        (fun i => (a.data.drop ((i * p + sel.getD i 0) * 3)).take 3))[i * 3 + k]? = _
    rw [flatMap_chunks_getElem? n 3 _ hchunk i k hi hk]
    rw [List.getElem?_take_of_lt hk, List.getElem?_drop]

lemma take_along_axis2_spec {α : Type} (a : NDArr α) (sel : List ℕ) (n p : ℕ)
    (hsh : a.shape = [n, p]) (hlen : a.data.length = n * p)
    (hsel : ∀ i, i < n → sel.getD i 0 < p) :
    (take_along_axis2 a sel).shape = [n, 1]
    ∧ ∀ i, i < n →
        (take_along_axis2 a sel).data[i]? = a.data[i * p + sel.getD i 0]? := by
  have heq : take_along_axis2 a sel
      = ⟨[n, 1], (List.range n).flatMap
          (fun i => (a.data.drop (i * p + sel.getD i 0)).take 1)⟩ := by
    unfold take_along_axis2
    rw [hsh]
  have hchunk : ∀ i, i < n →
      ((a.data.drop (i * p + sel.getD i 0)).take 1).length = 1 := by
    intro i hi
    have hbound : i * p + sel.getD i 0 + 1 ≤ n * p := by
      have hh := hsel i hi
      calc i * p + sel.getD i 0 + 1 ≤ i * p + p := by omega
      _ = (i + 1) * p := by ring
      _ ≤ n * p := Nat.mul_le_mul_right p hi
    rw [List.length_take, List.length_drop, hlen]
    omega
  constructor
  · rw [heq]
  · intro i hi
    rw [heq]
    show ((List.range n).flatMap
        (fun i => (a.data.drop (i * p + sel.getD i 0)).take 1))[i]? = _
    have hfm := flatMap_chunks_getElem? n 1
      (fun i => (a.data.drop (i * p + sel.getD i 0)).take 1) hchunk i 0 hi (by norm_num)
    rw [show i * 1 + 0 = i from by ring] at hfm
    rw [hfm, List.getElem?_take_of_lt (by norm_num : (0 : ℕ) < 1), List.getElem?_drop,
      Nat.add_zero]

lemma select_aruco_poses_ne {α : Type} (arucos : ArucoList α)
    (selector : NDArr α → NDArr α → NDArr α → ℕ) (hne : ¬ arucos.n = 0) :
    select_aruco_poses arucos selector =
      { arucos with
        n_poses := 1
        rvecs := some (take_along_axis3 (arucos.rvecs.getD (NDArr.empty []))
          ((List.range arucos.n).map (fun i =>
            selector ((arucos.rvecs.getD (NDArr.empty [])).row3 i)
              ((arucos.tvecs.getD (NDArr.empty [])).row3 i)
              ((arucos.reprojection_errors.getD (NDArr.empty [])).row2 i))))
        tvecs := some (take_along_axis3 (arucos.tvecs.getD (NDArr.empty []))
          ((List.range arucos.n).map (fun i =>
            selector ((arucos.rvecs.getD (NDArr.empty [])).row3 i)
              ((arucos.tvecs.getD (NDArr.empty [])).row3 i)
              ((arucos.reprojection_errors.getD (NDArr.empty [])).row2 i))))
        reprojection_errors := some (take_along_axis2
          (arucos.reprojection_errors.getD (NDArr.empty []))
          ((List.range arucos.n).map (fun i =>
            selector ((arucos.rvecs.getD (NDArr.empty [])).row3 i)
              ((arucos.tvecs.getD (NDArr.empty [])).row3 i)
              ((arucos.reprojection_errors.getD (NDArr.empty [])).row2 i)))) } := by
  unfold select_aruco_poses
  rw [if_neg hne]

/-- C1: on a detection result with `count = n ≥ 1` and pose arrays of shape
`(n, p, 3)` / `(n, p)`, `select_aruco_poses` with any in-range selector
returns a result with `poseCount = 1`, the same `count`, identical `ids`,
and per-marker pose arrays sliced exactly to the selector-chosen pose
index. -/
theorem select_aruco_poses_spec {α : Type} (arucos : ArucoList α)
    (selector : NDArr α → NDArr α → NDArr α → ℕ) (n p : ℕ)
    (hn : arucos.n = n) (hn1 : 1 ≤ n)
    (R T E : NDArr α)
    (hR : arucos.rvecs = some R) (hRsh : R.shape = [n, p, 3])
    (hRlen : R.data.length = n * p * 3)
    (hT : arucos.tvecs = some T) (hTsh : T.shape = [n, p, 3])
    (hTlen : T.data.length = n * p * 3)
    (hE : arucos.reprojection_errors = some E) (hEsh : E.shape = [n, p])
    (hElen : E.data.length = n * p)
    (hsel : ∀ i, i < n → selector (R.row3 i) (T.row3 i) (E.row2 i) < p) :
    (select_aruco_poses arucos selector).n_poses = 1
    ∧ (select_aruco_poses arucos selector).n = n
    ∧ (select_aruco_poses arucos selector).ids = arucos.ids
    ∧ (∃ R', (select_aruco_poses arucos selector).rvecs = some R'
        ∧ R'.shape = [n, 1, 3]
        ∧ ∀ i k, i < n → k < 3 →
            R'.data[i * 3 + k]?
              = R.data[(i * p + selector (R.row3 i) (T.row3 i) (E.row2 i)) * 3 + k]?)
    ∧ (∃ T', (select_aruco_poses arucos selector).tvecs = some T'
        ∧ T'.shape = [n, 1, 3]
        ∧ ∀ i k, i < n → k < 3 →
            T'.data[i * 3 + k]?
              = T.data[(i * p + selector (R.row3 i) (T.row3 i) (E.row2 i)) * 3 + k]?)
    ∧ (∃ E', (select_aruco_poses arucos selector).reprojection_errors = some E'
        ∧ E'.shape = [n, 1]
        ∧ ∀ i, i < n →
            E'.data[i]?
              = E.data[i * p + selector (R.row3 i) (T.row3 i) (E.row2 i)]?) := by
  have hne : ¬ arucos.n = 0 := by omega
  rw [select_aruco_poses_ne arucos selector hne]
  simp only [hn, hR, hT, hE, Option.getD_some]
  set selList : List ℕ := (List.range n).map
    (fun i => selector (R.row3 i) (T.row3 i) (E.row2 i)) with hselList
  have hselD : ∀ i, i < n → selList.getD i 0
      = selector (R.row3 i) (T.row3 i) (E.row2 i) := by
    intro i hi
    rw [hselList]
    exact getD_map_range _ n i hi
  have hselLt : ∀ i, i < n → selList.getD i 0 < p := by
    intro i hi
    rw [hselD i hi]
    exact hsel i hi
  obtain ⟨hRsh', hRget⟩ := take_along_axis3_spec R selList n p hRsh hRlen hselLt
  obtain ⟨hTsh', hTget⟩ := take_along_axis3_spec T selList n p hTsh hTlen hselLt
  obtain ⟨hEsh', hEget⟩ := take_along_axis2_spec E selList n p hEsh hElen hselLt
  refine ⟨trivial, trivial, trivial, ⟨_, rfl, hRsh', ?_⟩, ⟨_, rfl, hTsh', ?_⟩, ⟨_, rfl, hEsh', ?_⟩⟩
  · intro i k hi hk
    rw [hRget i k hi hk, hselD i hi]
  · intro i k hi hk
    rw [hTget i k hi hk, hselD i hi]
  · intro i hi
    rw [hEget i hi, hselD i hi]

/-- A concrete one-marker detection result with two candidate poses. -/
def exArucos : ArucoList ℕ :=
  { n := 1
    corners := ⟨[1, 1, 4, 2], [0, 0, 1, 0, 1, 1, 0, 1]⟩
    ids := ⟨[1, 1], [7]⟩
    n_rejected := 0
    rejected := ⟨[0, 1, 4, 2], []⟩
    aruco_sizes := some ⟨[1], [9]⟩
    n_poses := 2
    rvecs := some ⟨[1, 2, 3], [10, 11, 12, 20, 21, 22]⟩
    tvecs := some ⟨[1, 2, 3], [30, 31, 32, 40, 41, 42]⟩
    reprojection_errors := some ⟨[1, 2], [5, 4]⟩ }

/-- A concrete empty (count = 0) detection result, as `detect_aruco` builds
in non-generic mode. -/
def exEmptyArucos : ArucoList ℕ :=
  { n := 0
    corners := ⟨[0, 1, 4, 2], []⟩
    ids := ⟨[0, 1], []⟩
    n_rejected := 0
    rejected := ⟨[0, 1, 4, 2], []⟩
    aruco_sizes := some ⟨[0], []⟩
    n_poses := 1
    rvecs := some ⟨[0, 1, 3], []⟩
    tvecs := some ⟨[0, 1, 3], []⟩
    reprojection_errors := some ⟨[0, 1], []⟩ }

/-- A selector that always picks pose index 1. -/
def exSelector : NDArr ℕ → NDArr ℕ → NDArr ℕ → ℕ := fun _ _ _ => 1

/-- C1, witness: the selection spec applied to the concrete one-marker
result. -/
theorem select_aruco_poses_spec_witness :
    (select_aruco_poses exArucos exSelector).n_poses = 1
    ∧ (select_aruco_poses exArucos exSelector).n = 1 := by
  have h := select_aruco_poses_spec exArucos exSelector 1 2 rfl (by norm_num)
    ⟨[1, 2, 3], [10, 11, 12, 20, 21, 22]⟩ ⟨[1, 2, 3], [30, 31, 32, 40, 41, 42]⟩
    ⟨[1, 2], [5, 4]⟩ rfl rfl rfl rfl rfl rfl rfl rfl rfl
    (fun i hi => by norm_num [exSelector])
  exact ⟨h.1, h.2.1⟩

/-- C4 (evaluating the code at the failing input): in the empty-count branch
`select_aruco_poses` sets `reprojection_errors` to an array of shape
`(0, 1, 3)`, while the non-empty branch produces shape `(n, 1)` — the
dimensionalities differ, contradicting both the claimed shape contract and
the class's own `reprojection_errors.shape = (n, n_poses)` documentation;
`rvecs`/`tvecs` shapes are consistent between the branches. -/
theorem select_empty_reprojection_shape_bug :
    ((select_aruco_poses exEmptyArucos exSelector).reprojection_errors.map NDArr.shape
        = some [0, 1, 3])
    ∧ ((select_aruco_poses exArucos exSelector).reprojection_errors.map NDArr.shape
        = some [1, 1])
    ∧ ((select_aruco_poses exEmptyArucos exSelector).rvecs.map NDArr.shape
        = some [0, 1, 3])
    ∧ ((select_aruco_poses exArucos exSelector).rvecs.map NDArr.shape
        = some [1, 1, 3]) := by
  decide

lemma np_argmax_spec (l : List ℝ) (h : l ≠ []) :
    np_argmax l < l.length
    ∧ (∀ i, i < l.length → l.getD i 0 ≤ l.getD (np_argmax l) 0)
    ∧ (∀ i, i < np_argmax l → l.getD i 0 < l.getD (np_argmax l) 0) := by
  induction l with
  | nil => simp at h
  | cons x xs ih =>
    rcases eq_or_ne xs [] with hxs | hxs
    · subst hxs
      have hval : np_argmax [x] = 0 := by
        simp only [np_argmax]
        rw [if_pos (by simp : List.getD [] 0 x ≤ x)]
      rw [hval]
      refine ⟨by norm_num, ?_, ?_⟩
      · intro i hi
        have : i = 0 := by simpa using hi
        subst this
        exact le_refl _
      · intro i hi
        omega
    · obtain ⟨ih1, ih2, ih3⟩ := ih hxs
      have hgd : xs.getD (np_argmax xs) x = xs.getD (np_argmax xs) 0 := by
        rw [List.getD_eq_getElem xs x ih1, List.getD_eq_getElem xs 0 ih1]
      by_cases hc : xs.getD (np_argmax xs) x ≤ x
      · have hval : np_argmax (x :: xs) = 0 := by
          simp only [np_argmax]
          rw [if_pos hc]
        rw [hval]
        refine ⟨by simp, ?_, ?_⟩
        · intro i hi
          cases i with
          | zero => exact le_refl _
          | succ i =>
            rw [List.getD_cons_succ, List.getD_cons_zero]
            have hi' : i < xs.length := by simpa using hi
            calc xs.getD i 0 ≤ xs.getD (np_argmax xs) 0 := ih2 i hi'
            _ = xs.getD (np_argmax xs) x := hgd.symm
            _ ≤ x := hc
        · intro i hi
          omega
      · push_neg at hc
        have hval : np_argmax (x :: xs) = np_argmax xs + 1 := by
          simp only [np_argmax]
          rw [if_neg (not_le.mpr hc)]
        rw [hval]
        refine ⟨by simpa using Nat.succ_lt_succ ih1, ?_, ?_⟩
        · intro i hi
          cases i with
          | zero =>
            rw [List.getD_cons_zero, List.getD_cons_succ]
            rw [hgd] at hc
            exact le_of_lt hc
          | succ i =>
            rw [List.getD_cons_succ, List.getD_cons_succ]
            have hi' : i < xs.length := by simpa using hi
            exact ih2 i hi'
        · intro i hi
          cases i with
          | zero =>
            rw [List.getD_cons_zero, List.getD_cons_succ]
            rw [hgd] at hc
            exact hc
          | succ i =>
            rw [List.getD_cons_succ, List.getD_cons_succ]
            exact ih3 i (by omega)

/-- The score list of the `Z_axis_up` selector over `p` candidate poses. -/
noncomputable def zAxisScores (rvec : NDArr ℝ) (p : ℕ) : List ℝ :=
  (List.range p).map (fun i => -(Rodrigues (rvec.vecAt i) 1 2))

lemma Z_axis_up_eq (rvec tv e : NDArr ℝ) (p : ℕ) (hsh : rvec.shape = [p, 3]) :
    Z_axis_up rvec tv e = np_argmax (zAxisScores rvec p) := by
  unfold Z_axis_up select_by_rotation_matrix zAxisScores
  rw [hsh]
  rfl

lemma np_argmax_two (s0 s1 : ℝ) : np_argmax [s0, s1] = if s1 ≤ s0 then 0 else 1 := by
  simp only [np_argmax]
  rw [if_pos (by simp : List.getD [] 0 s1 ≤ s1)]
  rw [show List.getD [s1] 0 s0 = s1 from rfl]

lemma vecAt_two_0 (r1 r2 : Vec3) :
    NDArr.vecAt ⟨[2, 3], [r1 0, r1 1, r1 2, r2 0, r2 1, r2 2]⟩ 0 = r1 := by
  funext k
  fin_cases k <;> rfl

lemma vecAt_two_1 (r1 r2 : Vec3) :
    NDArr.vecAt ⟨[2, 3], [r1 0, r1 1, r1 2, r2 0, r2 1, r2 2]⟩ 1 = r2 := by
  funext k
  fin_cases k <;> rfl

lemma zAxisScores_two (r1 r2 : Vec3) :
    zAxisScores ⟨[2, 3], [r1 0, r1 1, r1 2, r2 0, r2 1, r2 2]⟩ 2
      = [-(Rodrigues r1 1 2), -(Rodrigues r2 1 2)] := by
  unfold zAxisScores
  rw [show List.range 2 = [0, 1] from rfl]
  rw [List.map_cons, List.map_cons, List.map_nil]
  rw [vecAt_two_0, vecAt_two_1]

lemma Z_axis_up_two_pick (r1 r2 : Vec3) (tv e : NDArr ℝ)
    (h1 : (Rodrigues r1).mulVec ![0, 0, 1] 1 < 0)
    (h2 : 0 < (Rodrigues r2).mulVec ![0, 0, 1] 1) :
    Z_axis_up ⟨[2, 3], [r1 0, r1 1, r1 2, r2 0, r2 1, r2 2]⟩ tv e = 0
    ∧ Z_axis_up ⟨[2, 3], [r2 0, r2 1, r2 2, r1 0, r1 1, r1 2]⟩ tv e = 1 := by
  rw [mulVec_e3_col] at h1 h2
  constructor
  · rw [Z_axis_up_eq _ tv e 2 rfl, zAxisScores_two, np_argmax_two]
    rw [if_pos (by linarith)]
  · rw [Z_axis_up_eq _ tv e 2 rfl, zAxisScores_two, np_argmax_two]
    rw [if_neg (by push_neg; linarith)]

/-- C7: `Z_axis_up` scores each candidate pose as minus the entry at row 1,
column 2 of its Rodrigues rotation matrix (the negative Y component of the
marker's Z axis) and returns the first index of maximal score (ties resolve
to the first maximal index); in particular, with one candidate whose marker
Z axis points toward -Y and one toward +Y, it picks the -Y one in either
order. -/
theorem Z_axis_up_spec (rvec tvec err : NDArr ℝ) (p : ℕ) (hp : 0 < p)
    (hsh : rvec.shape = [p, 3]) :
    Z_axis_up rvec tvec err < p
    ∧ (∀ i, i < p → (zAxisScores rvec p).getD i 0
        ≤ (zAxisScores rvec p).getD (Z_axis_up rvec tvec err) 0)
    ∧ (∀ i, i < Z_axis_up rvec tvec err → (zAxisScores rvec p).getD i 0
        < (zAxisScores rvec p).getD (Z_axis_up rvec tvec err) 0)
    ∧ (∀ r1 r2 : Vec3, ∀ tv e : NDArr ℝ,
        (Rodrigues r1).mulVec ![0, 0, 1] 1 < 0 → 0 < (Rodrigues r2).mulVec ![0, 0, 1] 1 →
          Z_axis_up ⟨[2, 3], [r1 0, r1 1, r1 2, r2 0, r2 1, r2 2]⟩ tv e = 0
          ∧ Z_axis_up ⟨[2, 3], [r2 0, r2 1, r2 2, r1 0, r1 1, r1 2]⟩ tv e = 1) := by
  have hlen : (zAxisScores rvec p).length = p := by
    unfold zAxisScores
    rw [List.length_map, List.length_range]
  have hne : zAxisScores rvec p ≠ [] := by
    intro h0
    rw [h0] at hlen
    simp at hlen
    omega
  obtain ⟨ha1, ha2, ha3⟩ := np_argmax_spec (zAxisScores rvec p) hne
  rw [Z_axis_up_eq rvec tvec err p hsh]
  rw [hlen] at ha1
  refine ⟨ha1, ?_, ha3, ?_⟩
  · intro i hi
    exact ha2 i (by rw [hlen]; exact hi)
  · intro r1 r2 tv e h1 h2
    exact Z_axis_up_two_pick r1 r2 tv e h1 h2

/-- C7, witness: the spec applied to a concrete single-pose array (the zero
rotation vector, whose Rodrigues matrix is the identity). -/
theorem Z_axis_up_spec_witness :
    Z_axis_up ⟨[1, 3], [0, 0, 0]⟩ ⟨[1, 3], [0, 0, 0]⟩ ⟨[1], [0]⟩ < 1 :=
  (Z_axis_up_spec ⟨[1, 3], [0, 0, 0]⟩ ⟨[1, 3], [0, 0, 0]⟩ ⟨[1], [0]⟩ 1
    (by norm_num) rfl).1

lemma getD_map_range' {β : Type} (f : ℕ → β) (d : β) (n i : ℕ) (hi : i < n) :
    ((List.range n).map f).getD i d = f i := by
  rw [List.getD_eq_getElem?_getD, List.getElem?_map, List.getElem?_range hi]
  rfl

lemma getD_map_lt {β γ : Type} (g : β → γ) (l : List β) (k : ℕ) (hk : k < l.length)
    (d : γ) (d' : β) : (l.map g).getD k d = g (l.getD k d') := by
  rw [List.getD_eq_getElem (l.map g) d (by simpa using hk), List.getElem_map,
    List.getD_eq_getElem l d' hk]

/-- The local 3d corner offset used by `get_aruco_corners_3d` for corner
index `k`: `(s/2 * sx, s/2 * sy, 0)` with `(sx, sy)` the k-th corner sign. -/
noncomputable def localCorner (s : ℝ) (k : ℕ) : Vec3 :=
  ![s / 2 * (cornerSigns.getD k (0, 0)).1, s / 2 * (cornerSigns.getD k (0, 0)).2, 0]

lemma castSucc_zero3 : Fin.castSucc (0 : Fin 3) = (0 : Fin 4) := rfl

lemma castSucc_one3 : Fin.castSucc (1 : Fin 3) = (1 : Fin 4) := rfl

lemma castSucc_two3 : Fin.castSucc (2 : Fin 3) = (2 : Fin 4) := rfl

lemma markerPose_corner (r t : Vec3) (x y : ℝ) (k : Fin 3) :
    (markerPose r t).mulVec ![x, y, 0, 1] k.castSucc
      = (Rodrigues r).mulVec ![x, y, 0] k + t k := by
  fin_cases k <;>
    simp [markerPose, Matrix.mulVec, Matrix.dotProduct, Fin.sum_univ_four,
      Fin.sum_univ_three, castSucc_zero3, castSucc_one3, castSucc_two3] <;>
    ring

/-- C6: with sizes and poses present, `get_aruco_corners_3d` returns a
`(n, poseCount, 4, 3)` array whose `[i, j, k]` entry is the Rodrigues
rotation of `rvecs[i, j]` applied to the k-th local corner offset
`(±s_i/2, ±s_i/2, 0)` plus `tvecs[i, j]`; the corner order equals the order
of the pose solve's object points; with sizes or poses absent it returns
`None`. -/
theorem get_aruco_corners_3d_spec (arucos : ArucoList ℝ) (S R T : NDArr ℝ) (n p : ℕ)
    (hn : arucos.n = n) (hp : arucos.n_poses = p)
    (hS : arucos.aruco_sizes = some S) (hR : arucos.rvecs = some R)
    (hT : arucos.tvecs = some T)
    (hRsh : R.shape = [n, p, 3]) (hTsh : T.shape = [n, p, 3]) :
    (∃ out, get_aruco_corners_3d arucos = some out
      ∧ out.length = n
      ∧ (∀ i, i < n → (out.getD i []).length = p)
      ∧ (∀ i j, i < n → j < p → ((out.getD i []).getD j []).length = 4)
      ∧ (∀ i j k, i < n → j < p → k < 4 →
          ((out.getD i []).getD j []).getD k (fun _ => 0)
            = fun c => (Rodrigues (R.vecAt (i * p + j))).mulVec
                (localCorner (S.data.getD i 0) k) c + T.vecAt (i * p + j) c))
    ∧ (∀ s : ℝ, objPoints s
        = cornerSigns.map (fun sgn => (![s / 2 * sgn.1, s / 2 * sgn.2, 0] : Vec3)))
    ∧ (∀ ar : ArucoList ℝ,
        ar.aruco_sizes = none ∨ ar.rvecs = none ∨ ar.tvecs = none →
          get_aruco_corners_3d ar = none) := by
  refine ⟨?_, ?_, ?_⟩
  · refine ⟨(List.range n).map (fun i => (List.range p).map (fun j =>
      cornerSigns.map (fun sgn =>
        fun k : Fin 3 => (markerPose (R.vecAt (i * p + j)) (T.vecAt (i * p + j))).mulVec
          ![S.data.getD i 0 / 2 * sgn.1, S.data.getD i 0 / 2 * sgn.2, 0, 1] k.castSucc))),
      ?_, ?_, ?_, ?_, ?_⟩
    · unfold get_aruco_corners_3d
      rw [hS, hR, hT]
      simp only [hn, hp, hRsh, hTsh]
      rfl
    · rw [List.length_map, List.length_range]
    · intro i hi
      rw [getD_map_range' _ _ n i hi, List.length_map, List.length_range]
    · intro i j hi hj
      rw [getD_map_range' _ _ n i hi, getD_map_range' _ _ p j hj]
      rfl
    · intro i j k hi hj hk
      rw [getD_map_range' _ _ n i hi, getD_map_range' _ _ p j hj]
      rw [getD_map_lt _ cornerSigns k (by simpa [cornerSigns] using hk)
        (fun _ => 0) (0, 0)]
      funext c
      exact markerPose_corner _ _ _ _ c
  · intro s
    simp only [objPoints, cornerSigns, List.map_cons, List.map_nil, List.cons.injEq, and_true]
    refine ⟨?_, ?_, ?_, ?_⟩ <;> (funext k; fin_cases k <;> simp <;> ring)
  · intro ar h
    unfold get_aruco_corners_3d
    rcases hS' : ar.aruco_sizes with _ | S' <;>
      rcases hR' : ar.rvecs with _ | R' <;>
        rcases hT' : ar.tvecs with _ | T' <;>
          simp_all

/-- A concrete one-marker, one-pose real-valued detection result. -/
noncomputable def exArucosR : ArucoList ℝ :=
  { n := 1
    corners := ⟨[1, 1, 4, 2], [0, 0, 1, 0, 1, 1, 0, 1]⟩
    ids := ⟨[1, 1], [7]⟩
    n_rejected := 0
    rejected := ⟨[0, 1, 4, 2], []⟩
    aruco_sizes := some ⟨[1], [2]⟩
    n_poses := 1
    rvecs := some ⟨[1, 1, 3], [0, 0, 0]⟩
    tvecs := some ⟨[1, 1, 3], [0, 0, 5]⟩
    reprojection_errors := some ⟨[1, 1], [-1]⟩ }

/-- C6, witness: the corner-projection spec applied to the concrete result. -/
theorem get_aruco_corners_3d_spec_witness :
    ((get_aruco_corners_3d exArucosR).getD []).length = 1 := by
  obtain ⟨⟨out, hout, hlen, _⟩, _, _⟩ := get_aruco_corners_3d_spec exArucosR
    ⟨[1], [2]⟩ ⟨[1, 1, 3], [0, 0, 0]⟩ ⟨[1, 1, 3], [0, 0, 5]⟩ 1 1
    rfl rfl rfl rfl rfl rfl rfl
  rw [hout]
  simpa using hlen

lemma solveMarkers_isOk {κ δ : Type}
    (solve : List Vec3 → NDArr ℝ → κ → δ → List (Vec3 × Vec3 × ℝ)) (K : κ) (D : δ)
    (g : Bool) (np : ℕ)
    (hg : g = true → ∀ o c, (solve o c K D).length = np) :
    ∀ pairs, ∃ r, solveMarkers solve K D g np pairs = .ok r := by
  intro pairs
  induction pairs with
  | nil => exact ⟨[], rfl⟩
  | cons pc rest ih =>
    obtain ⟨r, hr⟩ := ih
    obtain ⟨s, c⟩ := pc
    cases g with
    | false =>
      have heq : solveMarkers solve K D false np ((s, c) :: rest)
          = Except.ok (([((solve (objPoints s) c K D).headD
                (fun _ => 0, fun _ => 0, -1)).1],
              [((solve (objPoints s) c K D).headD (fun _ => 0, fun _ => 0, -1)).2.1],
              [-1]) :: r) := by
        simp only [solveMarkers]
        rw [if_neg (by simp), hr]
        rfl
      exact ⟨_, heq⟩
    | true =>
      have heq : solveMarkers solve K D true np ((s, c) :: rest)
          = Except.ok (((solve (objPoints s) c K D).map (·.1),
              (solve (objPoints s) c K D).map (·.2.1),
              (solve (objPoints s) c K D).map (·.2.2)) :: r) := by
        simp only [solveMarkers]
        rw [if_pos trivial, if_pos (hg rfl (objPoints s) c)]
        rw [hr]
        rfl
      exact ⟨_, heq⟩

/-- C5, amended: for a call that detects at least one marker, if any of
`K`, `D`, `aruco_sizes` is missing then the result has `poseCount = 0` and
all pose fields (`markerSizes`, `rvecs`, `tvecs`, `reprojectionErrors`)
absent — i.e. pose estimation runs only when all three are supplied.  (For
zero detected markers the code instead keeps the mode's `poseCount` and
empty, present pose arrays; see the counterexample.) -/
theorem detect_aruco_missing_calibration_amended {κ δ : Type} (det : DetectRaw)
    (K? : Option κ) (D? : Option δ) (sz? : Option SizesArg) (g : Bool)
    (solve : List Vec3 → NDArr ℝ → κ → δ → List (Vec3 × Vec3 × ℝ))
    (hn : 1 ≤ det.corners.length)
    (hmiss : K? = none ∨ D? = none ∨ sz? = none) :
    (detect_aruco det K? D? sz? g solve).map
      (fun r => (r.n_poses, r.aruco_sizes.isSome, r.rvecs.isSome, r.tvecs.isSome,
        r.reprojection_errors.isSome))
      = .ok (0, false, false, false, false) := by
  have hne : det.corners.length ≠ 0 := by omega
  simp only [detect_aruco]
  rw [if_pos hne]
  rcases K? with _ | K <;> rcases D? with _ | D <;> rcases sz? with _ | sz <;>
    first
      | rfl
      | (exfalso; rcases hmiss with h | h | h <;> simp_all)

/-- A detector output with zero detected markers. -/
noncomputable def exEmptyDet : DetectRaw := ⟨[], [], []⟩

/-- A detector output with one detected marker. -/
noncomputable def exOneDet : DetectRaw :=
  ⟨[⟨[1, 4, 2], [0, 0, 1, 0, 1, 1, 0, 1]⟩], [7], []⟩

/-- A trivial PnP-solver oracle returning no solutions. -/
noncomputable def exSolveU : List Vec3 → NDArr ℝ → Unit → Unit → List (Vec3 × Vec3 × ℝ) :=
  fun _ _ _ _ => []

/-- C5, counterexample: with zero detected markers and all of `K`, `D`,
`aruco_sizes` missing, `detect_aruco` returns `poseCount = 1` (the
non-generic request mode) and a present (empty) `rvecs` array — not
`poseCount = 0` with absent pose arrays as the claim states for every
call. -/
theorem detect_aruco_zero_markers_counterexample :
    (detect_aruco exEmptyDet (none : Option Unit) (none : Option Unit) none false
        exSolveU).map (fun r => (r.n_poses, r.rvecs.isSome)) = .ok (1, true) := rfl

/-- C5, witness: the amended statement applied to a one-marker detection
with `K` missing. -/
theorem detect_aruco_missing_calibration_witness :
    (detect_aruco exOneDet (none : Option Unit) (some ()) (some (SizesArg.scalar 1)) false
        exSolveU).map
      (fun r => (r.n_poses, r.aruco_sizes.isSome, r.rvecs.isSome, r.tvecs.isSome,
        r.reprojection_errors.isSome))
      = .ok (0, false, false, false, false) :=
  detect_aruco_missing_calibration_amended exOneDet none (some ()) (some (SizesArg.scalar 1))
    false exSolveU (by norm_num [exOneDet]) (Or.inl rfl)

/-- C8: with at least one detected marker and calibration supplied, a
sizes sequence raises the validation error iff its length differs from the
marker count, a nested (not one-dimensional) sizes argument always raises,
and a scalar size is broadcast and never raises a size-count error. -/
theorem detect_aruco_sizes_validation {κ δ : Type} (det : DetectRaw)
    (K : κ) (D : δ) (g : Bool)
    (solve : List Vec3 → NDArr ℝ → κ → δ → List (Vec3 × Vec3 × ℝ)) (n : ℕ)
    (hn : det.corners.length = n) (h1 : 1 ≤ n)
    (hg : g = true → ∀ o c, (solve o c K D).length = 2) :
    (∀ l : List ℝ,
        (detect_aruco det (some K) (some D) (some (SizesArg.seq l)) g solve).toOption = none
          ↔ l.length ≠ n)
    ∧ (∀ ll : List (List ℝ),
        (detect_aruco det (some K) (some D) (some (SizesArg.seq2 ll)) g solve).toOption
          = none)
    ∧ (∀ s : ℝ,
        (detect_aruco det (some K) (some D) (some (SizesArg.scalar s)) g solve).toOption
          ≠ none) := by
  subst hn
  have hne : det.corners.length ≠ 0 := by omega
  have hg' : g = true → ∀ o c, (solve o c K D).length = (if g then 2 else 1) := by
    intro hgt o c
    rw [hgt, if_pos rfl]
    exact hg hgt o c
  have hsolve := solveMarkers_isOk solve K D g (if g then 2 else 1) hg'
  refine ⟨?_, ?_, ?_⟩
  · intro l
    simp only [detect_aruco]
    rw [if_pos hne]
    by_cases hl : l.length = det.corners.length
    · have hns : normalizeSizes (SizesArg.seq l) det.corners.length = .ok l := by
        simp only [normalizeSizes]
        rw [if_pos hl]
      rw [hns]
      obtain ⟨r, hr⟩ := hsolve (l.zip ((argsortZ det.ids).map
        (fun i => det.corners.getD i (NDArr.empty [1, 4, 2]))))
      simp only [Except.bind, hr, Except.map, Except.toOption]
      simp [hl]
    · have hns : normalizeSizes (SizesArg.seq l) det.corners.length
          = .error "Number of aruco marker sizes does not correspond to the number of detected markers" := by
        simp only [normalizeSizes]
        rw [if_neg hl]
      rw [hns]
      simp only [Except.bind, Except.toOption]
      simp [hl]
  · intro ll
    simp only [detect_aruco]
    rw [if_pos hne]
    rfl
  · intro s
    simp only [detect_aruco]
    rw [if_pos hne]
    have hns : normalizeSizes (SizesArg.scalar s) det.corners.length
        = .ok (List.replicate det.corners.length s) := by
      simp only [normalizeSizes]
      rw [if_pos (List.length_replicate _ _)]
    rw [hns]
    obtain ⟨r, hr⟩ := hsolve ((List.replicate det.corners.length s).zip
      ((argsortZ det.ids).map (fun i => det.corners.getD i (NDArr.empty [1, 4, 2]))))
    simp only [Except.bind, hr, Except.map, Except.toOption]
    simp

/-- C8, witness: a one-marker detection with calibration and a two-element
sizes sequence raises the size-count validation error. -/
theorem detect_aruco_sizes_validation_witness :
    (detect_aruco exOneDet (some ()) (some ()) (some (SizesArg.seq [1, 2])) false
        exSolveU).toOption = none :=
  ((detect_aruco_sizes_validation exOneDet () () false exSolveU 1 rfl (by norm_num)
    (by intro h o c; simp at h)).1 [1, 2]).mpr (by norm_num)
